import Mathlib

/-!
# Verification of the cell-counter core pipeline

Shallow embedding of the core logic of the `cell-counter` repository:

* `src/cell_counter/core/Analyzer.py` — the `Patterns` tracking state
  (tracked / dropped_zero / dropped_many / saved), the per-frame update
  `Analyzer._process_frame`, and the multi-view driver
  `Analyzer.process_views`;
* `src/cell_counter/core/Extractor.py` — segment refinement
  (`_refine_time_lapse`), head/tail padding (`_add_head_tail`) and the
  composite segment key used by `_process_time_series_file`;
* `src/cell_counter/core/CellGenerator.py` — contour refinement
  (`_refine_contours`), region extraction (`_extract_region`) and the
  frame loaders (`load_nuclei` / `load_cyto`).

External effects (ND2 readers, the Cellpose counter, the filesystem) are
parameters: region extraction is a function returning `Option` (failure =
`none`), the batch counter a function returning `Option (List Nat)`
(batch failure = `none`), and file writes are collected in a list.
-/

namespace CellCounter

/-! ## Tracking state (`Patterns` in Analyzer.py)

`saved` is the dict `{i: [] for i in range(n_patterns)}`, represented as a
list of length `n_patterns` indexed by pattern index; all pattern indices
that reach `save_frame` come from `tracked ⊆ range n_patterns`. -/

structure PatternsState where
  tracked : List Nat
  dropped_zero : List Nat
  dropped_many : List Nat
  saved : List (List Nat)
  deriving Repr, DecidableEq

/-- `Patterns.__init__(n_patterns)`. -/
def initPatterns (nPatterns : Nat) : PatternsState :=
  { tracked := List.range nPatterns
    dropped_zero := []
    dropped_many := []
    saved := List.replicate nPatterns [] }

/-- `Patterns.drop_zero`: move `idx` from `tracked` to `dropped_zero`,
only when `idx` is currently tracked. -/
def dropZero (s : PatternsState) (idx : Nat) : PatternsState :=
  if idx ∈ s.tracked then
    { s with tracked := s.tracked.erase idx
             dropped_zero := s.dropped_zero ++ [idx] }
  else s

/-- `Patterns.drop_many`: move `idx` from `tracked` to `dropped_many`,
only when `idx` is currently tracked. -/
def dropMany (s : PatternsState) (idx : Nat) : PatternsState :=
  if idx ∈ s.tracked then
    { s with tracked := s.tracked.erase idx
             dropped_many := s.dropped_many ++ [idx] }
  else s

/-- `Patterns.save_frame`: append `frameIdx` to `saved[idx]` (no guard in
the source either). -/
def saveFrame (s : PatternsState) (idx frameIdx : Nat) : PatternsState :=
  { s with saved := s.saved.set idx (s.saved.getD idx [] ++ [frameIdx]) }

/-- `Patterns.get_valid_patterns`: the pattern → frames mapping restricted
to patterns with at least one saved frame. -/
def validPatterns (s : PatternsState) : List (Nat × List Nat) :=
  (List.range s.saved.length).filterMap fun i =>
    let fs := s.saved.getD i []
    if fs.isEmpty then none else some (i, fs)

/-! ## Per-frame update (`Analyzer._process_frame`) -/

/-- The branch ladder applied to one `(pattern_idx, n_count)` pair:
`if n == wanted: save; elif n > wanted: drop_many; elif n == 0: drop_zero`. -/
def transition (wanted frameIdx : Nat) (s : PatternsState) (p : Nat × Nat) :
    PatternsState :=
  if p.2 = wanted then saveFrame s p.1 frameIdx
  else if p.2 > wanted then dropMany s p.1
  else if p.2 = 0 then dropZero s p.1
  else s

/-- The `for pattern_idx, n_count in zip(tracked_indices, counts)` loop. -/
def updatePhase (wanted frameIdx : Nat) (pairs : List (Nat × Nat))
    (s : PatternsState) : PatternsState :=
  pairs.foldl (transition wanted frameIdx) s

/-- The region-extraction loop: for each tracked index, try to extract the
region (`extract i = none` models the `except` branch, which executes
`self.patterns.tracked.remove(pattern_idx)` and continues).  Returns the
collected `nuclei_list` and the mutated state. -/
def extractPhase {α : Type} (extract : Nat → Option α) :
    List Nat → PatternsState → List α × PatternsState
  | [], s => ([], s)
  | i :: rest, s =>
    match extract i with
    | some r =>
      let (l, s') := extractPhase extract rest s
      (r :: l, s')
    | none => extractPhase extract rest { s with tracked := s.tracked.erase i }

/-- `Analyzer._process_frame`: snapshot `tracked_indices`, run the
extraction loop, return early on an empty region list or a batch-counter
failure, otherwise zip the *pre-extraction* snapshot against the counts
(exactly as the source does) and fold the transition rule. -/
def processFrame {α : Type} (extract : Nat → Option α)
    (countBatch : List α → Option (List Nat)) (wanted frameIdx : Nat)
    (s : PatternsState) : PatternsState :=
  let trackedIndices := s.tracked
  let es := extractPhase extract trackedIndices s
  if es.1.isEmpty then es.2
  else
    match countBatch es.1 with
    | none => es.2
    | some counts => updatePhase wanted frameIdx (trackedIndices.zip counts) es.2

/-- `Analyzer.analyze_time_series` frame loop: fold `_process_frame` over
frames `0, …, nFrames-1` starting from a fresh `Patterns` state.
`extract f` and `countBatch f` are the frame-`f` extraction and batch
counting functions. -/
def analyzeView {α : Type} (extract : Nat → Nat → Option α)
    (countBatch : Nat → List α → Option (List Nat))
    (wanted nPatterns nFrames : Nat) : PatternsState :=
  (List.range nFrames).foldl
    (fun s f => processFrame (extract f) (countBatch f) wanted f s)
    (initPatterns nPatterns)

/-- The count tables of the end-to-end scenario: pattern 0 ("A") reports
[3,3,0,3,3] over frames 0–4 and pattern 1 ("B") reports [2,3,3,3,4]. -/
def scenarioCounts (f i : Nat) : Nat :=
  if i = 0 then [3, 3, 0, 3, 3].getD f 0 else [2, 3, 3, 3, 4].getD f 0

/-! ## Segment refinement (`Extractor._refine_time_lapse`) -/

/-- `MAX_GAP = 6` in `Extractor._refine_time_lapse`. -/
def MAX_GAP : Nat := 6

/-- The splitting loop of `_refine_time_lapse`: `start` is
`sequence_start`, `prev` is `current_end` (which always equals the
previously visited frame); a gap `> MAX_GAP` closes the current sequence. -/
def splitAux (start prev : Nat) : List Nat → List (Nat × Nat)
  | [] => [(start, prev)]
  | x :: xs =>
    if x - prev > MAX_GAP then (start, prev) :: splitAux x x xs
    else splitAux start x xs

/-- One pattern's pass through `_refine_time_lapse`: `frames.sort()` then
the gap-splitting walk; an empty list is skipped (`if not frames: continue`). -/
def refineFrames (frames : List Nat) : List (Nat × Nat) :=
  match frames.insertionSort (· ≤ ·) with
  | [] => []
  | f :: fs => splitAux f f fs

/-- The composite segment key `int(f"{pattern_idx:03d}{i:03d}")`: the
decimal digits of `p`, zero-padded to width ≥ 3, concatenated with the
decimal digits of `s`, zero-padded to width ≥ 3.  Numerically this is
`p * 10 ^ (width of the s-field) + s`, the width being
`max 3 (number of decimal digits of s)`. -/
def padWidth (s : Nat) : Nat := max 3 (Nat.digits 10 s).length

def encodeKey (p s : Nat) : Nat := p * 10 ^ padWidth s + s

/-- `original_pattern = pattern_idx // 1000` in
`Extractor._process_time_series_file`. -/
def decodeOriginal (k : Nat) : Nat := k / 1000

/-- `sequence_num = pattern_idx % 1000` in
`Extractor._process_time_series_file`. -/
def decodeSequence (k : Nat) : Nat := k % 1000

/-- `Extractor._refine_time_lapse` over the whole pattern → frames dict:
each non-empty frame list is split and its sequences are keyed by
`encodeKey pattern_idx i`. -/
def refineTimeLapse (timeLapse : List (Nat × List Nat)) :
    List (Nat × (Nat × Nat)) :=
  (timeLapse.map fun pf =>
    (refineFrames pf.2).enum.map fun ise => (encodeKey pf.1 ise.1, ise.2)).flatten

/-- Modelled from the claim's words, for comparison with `refineFrames`:
the decomposition of a (sorted) frame list into runs, where a new run
starts whenever the gap to the previous frame exceeds `MAX_GAP`.
`specRunAux x l` returns the run beginning at `x` and the remaining runs. -/
def specRunAux (x : Nat) : List Nat → List Nat × List (List Nat)
  | [] => ([x], [])
  | y :: ys =>
    if y - x > MAX_GAP then
      ([x], (specRunAux y ys).1 :: (specRunAux y ys).2)
    else
      (x :: (specRunAux y ys).1, (specRunAux y ys).2)

/-- Modelled from the claim's words: the list of runs of a frame list. -/
def specRuns : List Nat → List (List Nat)
  | [] => []
  | x :: xs => (specRunAux x xs).1 :: (specRunAux x xs).2

/-- The `[start, end]` pair recorded for a run. -/
def segEndpoints (r : List Nat) : Nat × Nat := (r.headD 0, r.getLastD 0)

/-! ## Head/tail padding (`Extractor._add_head_tail`) -/

/-- Padding of one segment: `new_start = max(0, start - n_frames)`,
`new_end = min(total_frames - 1, end + n_frames)`.  Arguments are `Int`
as in Python, where `start - n_frames` may go negative before the clamp. -/
def addHeadTailSeg (totalFrames nPad startF endF : Int) : Int × Int :=
  (max 0 (startF - nPad), min (totalFrames - 1) (endF + nPad))

/-- `Extractor._add_head_tail` over the whole dict. -/
def addHeadTail (totalFrames nPad : Int) (timeLapse : List (Nat × (Int × Int))) :
    List (Nat × (Int × Int)) :=
  timeLapse.map fun e => (e.1, addHeadTailSeg totalFrames nPad e.2.1 e.2.2)

/-! ## Region extraction (`CellGenerator._extract_region`) and the export
crop of `Extractor._process_time_series_file` -/

/-- A bounding box `(x, y, w, h)` as produced by `cv2.boundingRect`. -/
abbrev Box := Nat × Nat × Nat × Nat

/-- `CellGenerator._extract_region`'s index handling: error when
`pattern_idx >= n_patterns` (the caller passes `boundingBoxes` of length
`n_patterns`), otherwise select the bounding box to crop with. -/
def extractRegionBox (boundingBoxes : List Box) (patternIdx : Nat) :
    Option Box :=
  if patternIdx ≥ boundingBoxes.length then none
  else boundingBoxes.get? patternIdx

/-- The crop performed by `Extractor._process_time_series_file` for the
segment of original pattern `p` with sequence number `s`: the loop
variable `pattern_idx` is the *composite* dict key `encodeKey p s`, and it
is passed unchanged to `extract_nuclei` / `extract_cyto` /
`extract_pattern`, hence to `_extract_region`. -/
def exportCropBox (boundingBoxes : List Box) (p s : Nat) : Option Box :=
  extractRegionBox boundingBoxes (encodeKey p s)

/-! ## Frame loaders (`CellGenerator.load_nuclei` / `load_cyto`)

The guard in the source is `if frame_idx >= self.n_frames: raise`; a frame
index that passes the guard proceeds to `get_frame_2D` (modelled as
`.ok`).  Indices are `Int`, as Python integers can be negative. -/

def load_nuclei (nFrames frameIdx : Int) : Except String Unit :=
  if frameIdx ≥ nFrames then
    .error "Frame index out of range"
  else .ok ()

def load_cyto (nFrames frameIdx : Int) : Except String Unit :=
  if frameIdx ≥ nFrames then
    .error "Frame index out of range"
  else .ok ()

/-- `CellGenerator.load_view`, for contrast: it checks both bounds. -/
def load_view (nViews viewIdx : Int) : Except String Unit :=
  if viewIdx ≥ nViews ∨ viewIdx < 0 then
    .error "View index out of range"
  else .ok ()

/-! ## Contour refinement (`CellGenerator._refine_contours`) -/

/-- A contour with its `cv2.contourArea` and `cv2.boundingRect` data.
Areas are rationals (exact stand-ins for the source's floats). -/
structure Contour where
  area : ℚ
  x : Nat
  y : Nat
  w : Nat
  h : Nat
  deriving Repr, DecidableEq

/-- `np.mean(areas)`. -/
def meanArea (cs : List Contour) : ℚ :=
  (cs.map Contour.area).sum / cs.length

/-- `np.std(areas) ** 2`, the population variance: `np.std` is the square
root of this. -/
def varArea (cs : List Contour) : ℚ :=
  (cs.map fun c => (c.area - meanArea cs) ^ 2).sum / cs.length

/-- The filter `abs(area - mean_area) > AREA_STD_DEVIATIONS * std_area`
(with `AREA_STD_DEVIATIONS = 2`) decides rejection.  Both sides are
non-negative, so the comparison is encoded squared to stay in `ℚ`:
`|a - μ| > 2·σ ↔ (a - μ)² > 4·σ² = 4·var`. -/
def keepContour (cs : List Contour) (c : Contour) : Bool :=
  ¬ ((c.area - meanArea cs) ^ 2 > 4 * varArea cs)

/-- `center_x = x + w // 2`. -/
def centerX (c : Contour) : Nat := c.x + c.w / 2

/-- `center_y = y + h // 2`. -/
def centerY (c : Contour) : Nat := c.y + c.h / 2

/-- The sort key order of `contour_data.sort(key=lambda x: (x[0], x[1]))`:
lexicographic on `(center_y, center_x)`. -/
def keyLe (a b : Contour) : Prop :=
  centerY a < centerY b ∨ (centerY a = centerY b ∧ centerX a ≤ centerX b)

instance : DecidableRel keyLe := fun a b => by
  unfold keyLe; infer_instance

instance : IsTotal Contour keyLe where
  total a b := by unfold keyLe; omega

instance : IsTrans Contour keyLe where
  trans a b c hab hbc := by unfold keyLe at *; omega

/-- `CellGenerator._refine_contours`: reject on `None`/empty input, filter
by the 2-standard-deviations area rule (mean and std computed once over
the full input), then sort by `(center_y, center_x)`. -/
def refineContours (cs : List Contour) : Except String (List Contour) :=
  if cs.isEmpty then .error "Contours must not be None or empty"
  else .ok ((cs.filter (keepContour cs)).insertionSort keyLe)

/-- A contour set with one extreme outlier above the mean (area 200 >
mean + 2·std) in which a *second* contour (area 0) also deviates from the
mean by more than two standard deviations: areas are
[0, 100 ×7, 200], mean 100, variance 20000/9, and both 0 and 200 satisfy
(area − mean)² > 4·variance. -/
def outlierContours : List Contour :=
  [⟨0, 0, 0, 2, 2⟩, ⟨100, 10, 0, 2, 2⟩, ⟨100, 20, 0, 2, 2⟩, ⟨100, 30, 0, 2, 2⟩,
   ⟨100, 40, 0, 2, 2⟩, ⟨100, 50, 0, 2, 2⟩, ⟨100, 60, 0, 2, 2⟩, ⟨100, 70, 0, 2, 2⟩,
   ⟨200, 80, 0, 2, 2⟩]

/-! ## Multi-view driver (`Analyzer.process_views`) -/

/-- One iteration of the view loop: skip views in the processed record;
otherwise `analyze` the view (`none` models the caught per-view error:
log and continue, nothing written).  On success the result file is
written (appended to the write log) and the tracking record gains the
view. -/
def processViewStep {ρ : Type} (analyze : Nat → Option ρ)
    (acc : List (Nat × ρ) × List Nat) (viewIdx : Nat) :
    List (Nat × ρ) × List Nat :=
  if viewIdx ∈ acc.2 then acc
  else
    match analyze viewIdx with
    | some r => (acc.1 ++ [(viewIdx, r)], acc.2 ++ [viewIdx])
    | none => acc

/-- `Analyzer.process_views`: validate the range (`start_view < 0` cannot
arise for `Nat`; the source also checks it), then loop over
`range(start_view, end_view)`.  Returns the list of result files written,
in order, and the final processed-views record. -/
def processViews {ρ : Type} (nViews : Nat) (analyze : Nat → Option ρ)
    (processed : List Nat) (startView endView : Nat) :
    Except String (List (Nat × ρ) × List Nat) :=
  if endView > nViews ∨ startView ≥ endView then
    .error "Invalid view range"
  else
    .ok ((List.range' startView (endView - startView)).foldl
      (processViewStep analyze) ([], processed))

/-! ## Invariants of the tracking state -/

/-- Pattern `i` is a member of at most one of the three sets. -/
def memAtMostOne (s : PatternsState) (i : Nat) : Prop :=
  ¬(i ∈ s.tracked ∧ i ∈ s.dropped_zero) ∧
  ¬(i ∈ s.tracked ∧ i ∈ s.dropped_many) ∧
  ¬(i ∈ s.dropped_zero ∧ i ∈ s.dropped_many)

/-- Pattern `i` is a member of exactly one of the three sets. -/
def memExactlyOne (s : PatternsState) (i : Nat) : Prop :=
  (i ∈ s.tracked ∧ i ∉ s.dropped_zero ∧ i ∉ s.dropped_many) ∨
  (i ∉ s.tracked ∧ i ∈ s.dropped_zero ∧ i ∉ s.dropped_many) ∨
  (i ∉ s.tracked ∧ i ∉ s.dropped_zero ∧ i ∈ s.dropped_many)

/-- Structural invariant of a `Patterns` state: the tracked list has no
duplicates and the three sets are pairwise disjoint. -/
def SetsInv (s : PatternsState) : Prop :=
  s.tracked.Nodup ∧ ∀ i, memAtMostOne s i

theorem setsInv_initPatterns (n : Nat) : SetsInv (initPatterns n) := by
  refine ⟨List.nodup_range n, fun i => ?_⟩
  simp [memAtMostOne, initPatterns]

theorem memExactlyOne_initPatterns {n i : Nat} (h : i < n) :
    memExactlyOne (initPatterns n) i := by
  left
  simp [initPatterns, h]

/-! ### Preservation lemmas, per operation -/

theorem dropZero_tracked_subset (s : PatternsState) (idx : Nat) :
    (dropZero s idx).tracked ⊆ s.tracked := by
  unfold dropZero
  split
  · exact List.erase_subset idx s.tracked
  · exact fun _ h => h

theorem dropMany_tracked_subset (s : PatternsState) (idx : Nat) :
    (dropMany s idx).tracked ⊆ s.tracked := by
  unfold dropMany
  split
  · exact List.erase_subset idx s.tracked
  · exact fun _ h => h

theorem dropZero_saved (s : PatternsState) (idx : Nat) :
    (dropZero s idx).saved = s.saved := by
  unfold dropZero; split <;> rfl

theorem dropMany_saved (s : PatternsState) (idx : Nat) :
    (dropMany s idx).saved = s.saved := by
  unfold dropMany; split <;> rfl

theorem saveFrame_tracked (s : PatternsState) (idx f : Nat) :
    (saveFrame s idx f).tracked = s.tracked := rfl

theorem saveFrame_dropped (s : PatternsState) (idx f : Nat) :
    (saveFrame s idx f).dropped_zero = s.dropped_zero ∧
    (saveFrame s idx f).dropped_many = s.dropped_many := ⟨rfl, rfl⟩

theorem saveFrame_saved_getD_ne (s : PatternsState) (idx f i : Nat)
    (h : i ≠ idx) :
    (saveFrame s idx f).saved.getD i [] = s.saved.getD i [] := by
  show (s.saved.set idx (s.saved.getD idx [] ++ [f])).getD i [] = s.saved.getD i []
  rw [List.getD_eq_getElem?_getD, List.getElem?_set_ne (by omega),
    ← List.getD_eq_getElem?_getD]

theorem saveFrame_saved_getD_self (s : PatternsState) (idx f : Nat) :
    s.saved.getD idx [] <+: (saveFrame s idx f).saved.getD idx [] := by
  show s.saved.getD idx [] <+:
    (s.saved.set idx (s.saved.getD idx [] ++ [f])).getD idx []
  by_cases h : idx < s.saved.length
  · simp only [List.getD_eq_getElem?_getD, List.getElem?_set_self',
      List.getElem?_eq_getElem h, Option.map_some', Option.getD_some]
    exact List.prefix_append _ _
  · rw [List.set_eq_of_length_le (by omega)]

theorem dropZero_inv {s : PatternsState} (idx : Nat) (h : SetsInv s) :
    SetsInv (dropZero s idx) := by
  obtain ⟨hnd, hdisj⟩ := h
  unfold dropZero
  split
  case isTrue hmem =>
    refine ⟨hnd.erase idx, fun i => ?_⟩
    obtain ⟨h₁, h₂, h₃⟩ := hdisj i
    refine ⟨?_, ?_, ?_⟩ <;> simp only [List.mem_append, List.mem_singleton]
    · rintro ⟨ht, hz | rfl⟩
      · exact h₁ ⟨List.erase_subset idx s.tracked ht, hz⟩
      · exact hnd.not_mem_erase ht
    · rintro ⟨ht, hm⟩
      exact h₂ ⟨List.erase_subset idx s.tracked ht, hm⟩
    · rintro ⟨hz | rfl, hm⟩
      · exact h₃ ⟨hz, hm⟩
      · exact h₂ ⟨hmem, hm⟩
  case isFalse => exact ⟨hnd, hdisj⟩

theorem dropMany_inv {s : PatternsState} (idx : Nat) (h : SetsInv s) :
    SetsInv (dropMany s idx) := by
  obtain ⟨hnd, hdisj⟩ := h
  unfold dropMany
  split
  case isTrue hmem =>
    refine ⟨hnd.erase idx, fun i => ?_⟩
    obtain ⟨h₁, h₂, h₃⟩ := hdisj i
    refine ⟨?_, ?_, ?_⟩ <;> simp only [List.mem_append, List.mem_singleton]
    · rintro ⟨ht, hz⟩
      exact h₁ ⟨List.erase_subset idx s.tracked ht, hz⟩
    · rintro ⟨ht, hm | rfl⟩
      · exact h₂ ⟨List.erase_subset idx s.tracked ht, hm⟩
      · exact hnd.not_mem_erase ht
    · rintro ⟨hz, hm | rfl⟩
      · exact h₃ ⟨hz, hm⟩
      · exact h₁ ⟨hmem, hz⟩
  case isFalse => exact ⟨hnd, hdisj⟩

theorem saveFrame_inv {s : PatternsState} (idx f : Nat) (h : SetsInv s) :
    SetsInv (saveFrame s idx f) := h

theorem dropZero_exactlyOne {s : PatternsState} {i : Nat} (idx : Nat)
    (hinv : SetsInv s) (h : memExactlyOne s i) :
    memExactlyOne (dropZero s idx) i := by
  obtain ⟨hnd, _⟩ := hinv
  unfold dropZero
  split
  case isTrue hmem =>
    by_cases hi : i = idx
    · subst hi
      rcases h with ⟨_, hz, hm⟩ | ⟨ht, _, _⟩ | ⟨ht, _, _⟩
      · right; left
        refine ⟨hnd.not_mem_erase, ?_, hm⟩
        simp
      · exact absurd hmem ht
      · exact absurd hmem ht
    · have he : i ∈ s.tracked.erase idx ↔ i ∈ s.tracked :=
        List.mem_erase_of_ne hi
      have hz : i ∈ s.dropped_zero ++ [idx] ↔ i ∈ s.dropped_zero := by
        simp [hi]
      rcases h with ⟨h₁, h₂, h₃⟩ | ⟨h₁, h₂, h₃⟩ | ⟨h₁, h₂, h₃⟩
      · exact Or.inl ⟨he.mpr h₁, fun hx => h₂ (hz.mp hx), h₃⟩
      · exact Or.inr (Or.inl ⟨fun hx => h₁ (he.mp hx), hz.mpr h₂, h₃⟩)
      · exact Or.inr (Or.inr ⟨fun hx => h₁ (he.mp hx), fun hx => h₂ (hz.mp hx), h₃⟩)
  case isFalse => exact h

theorem dropMany_exactlyOne {s : PatternsState} {i : Nat} (idx : Nat)
    (hinv : SetsInv s) (h : memExactlyOne s i) :
    memExactlyOne (dropMany s idx) i := by
  obtain ⟨hnd, _⟩ := hinv
  unfold dropMany
  split
  case isTrue hmem =>
    by_cases hi : i = idx
    · subst hi
      rcases h with ⟨_, hz, hm⟩ | ⟨ht, _, _⟩ | ⟨ht, _, _⟩
      · right; right
        refine ⟨hnd.not_mem_erase, hz, ?_⟩
        simp
      · exact absurd hmem ht
      · exact absurd hmem ht
    · have he : i ∈ s.tracked.erase idx ↔ i ∈ s.tracked :=
        List.mem_erase_of_ne hi
      have hm' : i ∈ s.dropped_many ++ [idx] ↔ i ∈ s.dropped_many := by
        simp [hi]
      rcases h with ⟨h₁, h₂, h₃⟩ | ⟨h₁, h₂, h₃⟩ | ⟨h₁, h₂, h₃⟩
      · exact Or.inl ⟨he.mpr h₁, h₂, fun hx => h₃ (hm'.mp hx)⟩
      · exact Or.inr (Or.inl ⟨fun hx => h₁ (he.mp hx), h₂, fun hx => h₃ (hm'.mp hx)⟩)
      · exact Or.inr (Or.inr ⟨fun hx => h₁ (he.mp hx), h₂, hm'.mpr h₃⟩)
  case isFalse => exact h

/-! ### Lifting to `transition`, `updatePhase`, `extractPhase`, `processFrame` -/

theorem transition_tracked_subset (w f : Nat) (s : PatternsState) (p : Nat × Nat) :
    (transition w f s p).tracked ⊆ s.tracked := by
  unfold transition
  split
  · exact fun _ h => h
  split
  · exact dropMany_tracked_subset s p.1
  split
  · exact dropZero_tracked_subset s p.1
  · exact fun _ h => h

theorem transition_inv {s : PatternsState} (w f : Nat) (p : Nat × Nat)
    (h : SetsInv s) : SetsInv (transition w f s p) := by
  unfold transition
  split
  · exact saveFrame_inv p.1 f h
  split
  · exact dropMany_inv p.1 h
  split
  · exact dropZero_inv p.1 h
  · exact h

theorem transition_exactlyOne {s : PatternsState} {i : Nat} (w f : Nat)
    (p : Nat × Nat) (hinv : SetsInv s) (h : memExactlyOne s i) :
    memExactlyOne (transition w f s p) i := by
  unfold transition
  split
  · exact h
  split
  · exact dropMany_exactlyOne p.1 hinv h
  split
  · exact dropZero_exactlyOne p.1 hinv h
  · exact h

theorem transition_saved_grows (w f : Nat) (s : PatternsState)
    (p : Nat × Nat) (i : Nat) :
    s.saved.getD i [] <+: (transition w f s p).saved.getD i [] := by
  unfold transition
  split
  · by_cases hi : i = p.1
    · rw [hi]; exact saveFrame_saved_getD_self s p.1 f
    · rw [saveFrame_saved_getD_ne s p.1 f i hi]
  split
  · rw [dropMany_saved]
  split
  · rw [dropZero_saved]
  · exact List.prefix_refl _

theorem transition_saved_of_ne (w f : Nat) (s : PatternsState)
    (p : Nat × Nat) (i : Nat) (h : i ≠ p.1) :
    (transition w f s p).saved.getD i [] = s.saved.getD i [] := by
  unfold transition
  split
  · exact saveFrame_saved_getD_ne s p.1 f i h
  split
  · rw [dropMany_saved]
  split
  · rw [dropZero_saved]
  · rfl

theorem updatePhase_cons (w f : Nat) (p : Nat × Nat)
    (rest : List (Nat × Nat)) (s : PatternsState) :
    updatePhase w f (p :: rest) s = updatePhase w f rest (transition w f s p) :=
  rfl

theorem updatePhase_tracked_subset (w f : Nat) (pairs : List (Nat × Nat)) :
    ∀ s : PatternsState, (updatePhase w f pairs s).tracked ⊆ s.tracked := by
  induction pairs with
  | nil => exact fun s => fun _ h => h
  | cons p rest ih =>
    intro s
    rw [updatePhase_cons]
    exact (ih _).trans (transition_tracked_subset w f s p)

theorem updatePhase_inv (w f : Nat) (pairs : List (Nat × Nat)) :
    ∀ s : PatternsState, SetsInv s → SetsInv (updatePhase w f pairs s) := by
  induction pairs with
  | nil => exact fun s h => h
  | cons p rest ih => exact fun s h => ih _ (transition_inv w f p h)

theorem updatePhase_exactlyOne (w f : Nat) (pairs : List (Nat × Nat)) :
    ∀ (s : PatternsState) (i : Nat), SetsInv s → memExactlyOne s i →
      memExactlyOne (updatePhase w f pairs s) i := by
  induction pairs with
  | nil => exact fun s i _ h => h
  | cons p rest ih =>
    exact fun s i hinv h =>
      ih _ i (transition_inv w f p hinv) (transition_exactlyOne w f p hinv h)

theorem updatePhase_saved_grows (w f : Nat) (pairs : List (Nat × Nat)) :
    ∀ (s : PatternsState) (i : Nat),
      s.saved.getD i [] <+: (updatePhase w f pairs s).saved.getD i [] := by
  induction pairs with
  | nil => exact fun s i => List.prefix_refl _
  | cons p rest ih =>
    exact fun s i => (transition_saved_grows w f s p i).trans (ih _ i)

theorem updatePhase_saved_of_not_mem (w f : Nat) (pairs : List (Nat × Nat)) :
    ∀ (s : PatternsState) (i : Nat), i ∉ pairs.map Prod.fst →
      (updatePhase w f pairs s).saved.getD i [] = s.saved.getD i [] := by
  induction pairs with
  | nil => exact fun s i _ => rfl
  | cons p rest ih =>
    intro s i hi
    simp only [List.map_cons, List.mem_cons, not_or] at hi
    rw [updatePhase_cons, ih _ i (by simpa using hi.2),
      transition_saved_of_ne w f s p i hi.1]

theorem extractPhase_unchanged {α : Type} (extract : Nat → Option α) :
    ∀ (l : List Nat) (s : PatternsState),
      (extractPhase extract l s).2.dropped_zero = s.dropped_zero ∧
      (extractPhase extract l s).2.dropped_many = s.dropped_many ∧
      (extractPhase extract l s).2.saved = s.saved := by
  intro l
  induction l with
  | nil => exact fun s => ⟨rfl, rfl, rfl⟩
  | cons i rest ih =>
    intro s
    unfold extractPhase
    cases extract i with
    | some r => exact ih s
    | none => exact ih _

theorem extractPhase_tracked_subset {α : Type} (extract : Nat → Option α) :
    ∀ (l : List Nat) (s : PatternsState),
      (extractPhase extract l s).2.tracked ⊆ s.tracked := by
  intro l
  induction l with
  | nil => exact fun s => fun _ h => h
  | cons i rest ih =>
    intro s
    unfold extractPhase
    cases extract i with
    | some r => exact ih s
    | none =>
      exact fun a ha => List.erase_subset i s.tracked (ih _ ha)

theorem extractPhase_nodup {α : Type} (extract : Nat → Option α) :
    ∀ (l : List Nat) (s : PatternsState),
      s.tracked.Nodup → (extractPhase extract l s).2.tracked.Nodup := by
  intro l
  induction l with
  | nil => exact fun s h => h
  | cons i rest ih =>
    intro s h
    unfold extractPhase
    cases extract i with
    | some r => exact ih s h
    | none => exact ih _ (h.erase i)

theorem extractPhase_atMostOne {α : Type} (extract : Nat → Option α) :
    ∀ (l : List Nat) (s : PatternsState) (i : Nat),
      memAtMostOne s i → memAtMostOne (extractPhase extract l s).2 i := by
  intro l
  induction l with
  | nil => exact fun s i h => h
  | cons j rest ih =>
    intro s i h
    unfold extractPhase
    cases extract j with
    | some r => exact ih s i h
    | none =>
      refine ih _ i ?_
      obtain ⟨h₁, h₂, h₃⟩ := h
      exact ⟨fun hx => h₁ ⟨List.erase_subset j s.tracked hx.1, hx.2⟩,
        fun hx => h₂ ⟨List.erase_subset j s.tracked hx.1, hx.2⟩, h₃⟩

theorem extractPhase_of_success {α : Type} (extract : Nat → Option α) :
    ∀ (l : List Nat) (s : PatternsState),
      (∀ i ∈ l, (extract i).isSome) → (extractPhase extract l s).2 = s := by
  intro l
  induction l with
  | nil => exact fun s _ => rfl
  | cons i rest ih =>
    intro s h
    unfold extractPhase
    cases hx : extract i with
    | some r => exact ih s fun j hj => h j (List.mem_cons_of_mem i hj)
    | none =>
      have := h i (List.mem_cons_self i rest)
      rw [hx] at this
      exact absurd this (by simp)

theorem processFrame_cases {α : Type} (extract : Nat → Option α)
    (countBatch : List α → Option (List Nat)) (w f : Nat) (s : PatternsState) :
    processFrame extract countBatch w f s = (extractPhase extract s.tracked s).2
    ∨ ∃ counts, countBatch (extractPhase extract s.tracked s).1 = some counts ∧
        processFrame extract countBatch w f s =
          updatePhase w f (s.tracked.zip counts)
            (extractPhase extract s.tracked s).2 := by
  unfold processFrame
  by_cases h : (extractPhase extract s.tracked s).1.isEmpty
  · left; simp [h]
  · simp only [h, if_false]
    cases hc : countBatch (extractPhase extract s.tracked s).1 with
    | none => left; rfl
    | some counts => right; exact ⟨counts, rfl, rfl⟩

theorem mem_map_fst_zip {β : Type} (a : Nat) (l : List Nat) (c : List β)
    (h : a ∈ (l.zip c).map Prod.fst) : a ∈ l := by
  simp only [List.mem_map] at h
  obtain ⟨p, hp, rfl⟩ := h
  exact (List.of_mem_zip hp).1

/-! ### Run-decomposition lemmas for the Segment Refiner -/

theorem specRunAux_fst_cons :
    ∀ (l : List Nat) (x : Nat), ∃ t, (specRunAux x l).1 = x :: t := by
  intro l
  induction l with
  | nil => exact fun x => ⟨[], rfl⟩
  | cons y ys ih =>
    intro x
    unfold specRunAux
    by_cases h : y - x > MAX_GAP
    · rw [if_pos h]; exact ⟨[], rfl⟩
    · rw [if_neg h]; exact ⟨(specRunAux y ys).1, rfl⟩

theorem specRunAux_flatten :
    ∀ (l : List Nat) (x : Nat),
      (specRunAux x l).1 ++ ((specRunAux x l).2).flatten = x :: l := by
  intro l
  induction l with
  | nil => exact fun x => rfl
  | cons y ys ih =>
    intro x
    unfold specRunAux
    by_cases h : y - x > MAX_GAP
    · rw [if_pos h]
      simp only [List.flatten_cons, List.singleton_append]
      rw [ih y]
    · rw [if_neg h]
      simp only [List.cons_append]
      rw [ih y]

theorem specRunAux_chain :
    ∀ (l : List Nat) (x : Nat),
      List.Chain' (fun a b => b - a ≤ MAX_GAP) (specRunAux x l).1 ∧
      ∀ r ∈ (specRunAux x l).2, List.Chain' (fun a b => b - a ≤ MAX_GAP) r := by
  intro l
  induction l with
  | nil => exact fun x => ⟨List.chain'_singleton x, by simp [specRunAux]⟩
  | cons y ys ih =>
    intro x
    unfold specRunAux
    by_cases h : y - x > MAX_GAP
    · rw [if_pos h]
      refine ⟨List.chain'_singleton x, fun r hr => ?_⟩
      rcases List.mem_cons.mp hr with rfl | hr
      · exact (ih y).1
      · exact (ih y).2 r hr
    · rw [if_neg h]
      refine ⟨?_, (ih y).2⟩
      obtain ⟨t, ht⟩ := specRunAux_fst_cons ys y
      have hy1 := (ih y).1
      rw [ht] at hy1
      show List.Chain' _ (x :: (specRunAux y ys).1)
      rw [ht]
      exact List.chain'_cons.mpr ⟨by omega, hy1⟩

theorem specRunAux_ne_nil :
    ∀ (l : List Nat) (x : Nat),
      (specRunAux x l).1 ≠ [] ∧ ∀ r ∈ (specRunAux x l).2, r ≠ [] := by
  intro l
  induction l with
  | nil => exact fun x => ⟨by simp [specRunAux], by simp [specRunAux]⟩
  | cons y ys ih =>
    intro x
    unfold specRunAux
    by_cases h : y - x > MAX_GAP
    · rw [if_pos h]
      refine ⟨by simp, fun r hr => ?_⟩
      rcases List.mem_cons.mp hr with rfl | hr
      · exact (ih y).1
      · exact (ih y).2 r hr
    · rw [if_neg h]
      exact ⟨by simp, (ih y).2⟩

theorem specRunAux_boundary :
    ∀ (l : List Nat) (x : Nat),
      List.Chain' (fun r₁ r₂ => r₂.headD 0 - r₁.getLastD 0 > MAX_GAP)
        ((specRunAux x l).1 :: (specRunAux x l).2) := by
  intro l
  induction l with
  | nil => exact fun x => List.chain'_singleton _
  | cons y ys ih =>
    intro x
    unfold specRunAux
    by_cases h : y - x > MAX_GAP
    · rw [if_pos h]
      refine List.chain'_cons.mpr ⟨?_, ih y⟩
      obtain ⟨t, ht⟩ := specRunAux_fst_cons ys y
      rw [ht]
      simpa using h
    · rw [if_neg h]
      obtain ⟨t, ht⟩ := specRunAux_fst_cons ys y
      have hy := ih y
      cases hsnd : (specRunAux y ys).2 with
      | nil => exact List.chain'_singleton _
      | cons r rs =>
        rw [hsnd] at hy
        refine List.chain'_cons.mpr ⟨?_, (List.chain'_cons.mp hy).2⟩
        have hrel := (List.chain'_cons.mp hy).1
        rw [ht] at hrel ⊢
        rw [List.getLastD_cons 0 x (y :: t)]
        rw [List.getLastD_cons 0 y t] at hrel
        rw [List.getLastD_cons x y t]
        exact hrel

theorem splitAux_eq_specRuns :
    ∀ (l : List Nat) (start prev : Nat),
      splitAux start prev l =
        (start, (specRunAux prev l).1.getLastD 0) ::
          ((specRunAux prev l).2).map segEndpoints := by
  intro l
  induction l with
  | nil => intro start prev; rfl
  | cons x xs ih =>
    intro start prev
    unfold splitAux specRunAux
    by_cases h : x - prev > MAX_GAP
    · rw [if_pos h, if_pos h]
      rw [ih x x]
      obtain ⟨t, ht⟩ := specRunAux_fst_cons xs x
      simp only [List.map_cons]
      congr 2
      unfold segEndpoints
      rw [ht]
      simp
    · rw [if_neg h, if_neg h]
      rw [ih start x]
      obtain ⟨t, ht⟩ := specRunAux_fst_cons xs x
      congr 2
      rw [ht, List.getLastD_cons 0 prev (x :: t), List.getLastD_cons prev x t,
        List.getLastD_cons 0 x t]

/-! ## Claim theorems -/

/-- C1: the claim says every tracked pattern receives the count produced
from its own region even when region extraction fails for some pattern
mid-frame.  The code zips the *pre-extraction* snapshot of tracked
indices against a count list that skips the failed pattern, so the counts
shift: here patterns 0,1,2 are tracked, extraction fails for pattern 1,
both extracted regions (of patterns 0 and 2) count 3 = wanted, yet the
frame is saved for patterns 0 and 1 — pattern 1 (the failed one) receives
the count of pattern 2's region and pattern 2 receives nothing. -/
theorem C1_counts_misattributed_after_extraction_failure :
    (processFrame (fun i => if i = 1 then (none : Option Nat) else some i)
        (fun rs => some (rs.map fun _ => 3)) 3 5 (initPatterns 3)).saved
      = [[5], [5], []]
    ∧ (processFrame (fun i => if i = 1 then (none : Option Nat) else some i)
        (fun rs => some (rs.map fun _ => 3)) 3 5 (initPatterns 3)).saved.getD 2 []
      = [] := by
  constructor <;> rfl

/-- C2 (counterexample): with one tracked pattern whose region extraction
fails, the frame update removes it from `tracked` without adding it to
either dropped set, so afterwards pattern 0 lies in *none* of the three
sets — refuting "every pattern index lies in exactly one of the three
sets after every tracking-state update (including the drop performed when
that pattern's region extraction fails)". -/
theorem C2_extraction_drop_leaves_pattern_in_no_set :
    0 ∉ (processFrame (fun _ => (none : Option Nat)) (fun _ => none) 3 0
          (initPatterns 1)).tracked
    ∧ 0 ∉ (processFrame (fun _ => (none : Option Nat)) (fun _ => none) 3 0
          (initPatterns 1)).dropped_zero
    ∧ 0 ∉ (processFrame (fun _ => (none : Option Nat)) (fun _ => none) 3 0
          (initPatterns 1)).dropped_many
    ∧ ¬ memExactlyOne (processFrame (fun _ => (none : Option Nat))
          (fun _ => none) 3 0 (initPatterns 1)) 0 := by
  refine ⟨by decide, by decide, by decide, ?_⟩
  intro h
  rcases h with ⟨h, _, _⟩ | ⟨_, h, _⟩ | ⟨_, _, h⟩ <;> revert h <;> decide

/-- C2 (amended): across one frame update every pattern lies in *at most*
one of the three sets (the extraction-failure drop leaves the failed
pattern in none of them); it lies in exactly one whenever every tracked
pattern's region extraction succeeds; once a pattern has left `tracked`
it never returns; saved lists only grow; and the saved list of a pattern
that is not tracked at the start of the frame is unchanged by the frame
(so no later observation is recorded for a dropped pattern). -/
theorem C2_tracking_state_invariants {α : Type} (extract : Nat → Option α)
    (countBatch : List α → Option (List Nat)) (wanted frameIdx : Nat)
    (s : PatternsState) (hinv : SetsInv s) :
    SetsInv (processFrame extract countBatch wanted frameIdx s)
    ∧ (processFrame extract countBatch wanted frameIdx s).tracked ⊆ s.tracked
    ∧ (∀ i, s.saved.getD i [] <+:
        (processFrame extract countBatch wanted frameIdx s).saved.getD i [])
    ∧ (∀ i, i ∉ s.tracked →
        (processFrame extract countBatch wanted frameIdx s).saved.getD i []
          = s.saved.getD i [])
    ∧ ((∀ i ∈ s.tracked, (extract i).isSome) → ∀ i,
        memExactlyOne s i →
          memExactlyOne (processFrame extract countBatch wanted frameIdx s) i) := by
  obtain ⟨hnd, hamo⟩ := hinv
  obtain ⟨hdz, hdm, hsv⟩ := extractPhase_unchanged extract s.tracked s
  have hinv1 : SetsInv (extractPhase extract s.tracked s).2 := by
    refine ⟨extractPhase_nodup extract s.tracked s hnd, fun i => ?_⟩
    exact extractPhase_atMostOne extract s.tracked s i (hamo i)
  rcases processFrame_cases extract countBatch wanted frameIdx s with
    heq | ⟨counts, _, heq⟩
  · rw [heq]
    refine ⟨hinv1, extractPhase_tracked_subset extract s.tracked s,
      fun i => by rw [hsv], fun i _ => by rw [hsv], fun hsucc i hone => ?_⟩
    rw [extractPhase_of_success extract s.tracked s hsucc]
    exact hone
  · rw [heq]
    refine ⟨updatePhase_inv _ _ _ _ hinv1,
      (updatePhase_tracked_subset _ _ _ _).trans
        (extractPhase_tracked_subset extract s.tracked s),
      fun i => ?_, fun i hi => ?_, fun hsucc i hone => ?_⟩
    · have := updatePhase_saved_grows wanted frameIdx (s.tracked.zip counts)
        (extractPhase extract s.tracked s).2 i
      rw [hsv] at this
      exact this
    · rw [updatePhase_saved_of_not_mem _ _ _ _ i
        (fun hx => hi (mem_map_fst_zip i s.tracked counts hx)), hsv]
    · have hs1 : (extractPhase extract s.tracked s).2 = s :=
        extractPhase_of_success extract s.tracked s hsucc
      rw [hs1]
      exact updatePhase_exactlyOne _ _ _ _ i ⟨hnd, hamo⟩ hone

/-- Witness for C2 (amended): the invariants instantiated on a concrete
two-pattern state and frame. -/
theorem C2_tracking_state_invariants_witness :
    SetsInv (initPatterns 2)
    ∧ (SetsInv (processFrame (fun i => some i)
          (fun rs => some (rs.map fun _ => 0)) 3 0 (initPatterns 2))
        ∧ (processFrame (fun i => some i)
            (fun rs => some (rs.map fun _ => 0)) 3 0 (initPatterns 2)).tracked
              ⊆ (initPatterns 2).tracked
        ∧ (∀ i, (initPatterns 2).saved.getD i [] <+:
            (processFrame (fun i => some i)
              (fun rs => some (rs.map fun _ => 0)) 3 0 (initPatterns 2)).saved.getD i [])
        ∧ (∀ i, i ∉ (initPatterns 2).tracked →
            (processFrame (fun i => some i)
              (fun rs => some (rs.map fun _ => 0)) 3 0 (initPatterns 2)).saved.getD i []
                = (initPatterns 2).saved.getD i [])
        ∧ ((∀ i ∈ (initPatterns 2).tracked, ((fun i => some i) i).isSome) → ∀ i,
            memExactlyOne (initPatterns 2) i →
              memExactlyOne (processFrame (fun i => some i)
                (fun rs => some (rs.map fun _ => 0)) 3 0 (initPatterns 2)) i)) :=
  ⟨setsInv_initPatterns 2,
    C2_tracking_state_invariants (fun i => some i)
      (fun rs => some (rs.map fun _ => 0)) 3 0 (initPatterns 2)
      (setsInv_initPatterns 2)⟩

/-- C5: the end-to-end scenario — 2 patterns, 5 frames, wanted = 3,
pattern A (index 0) counting [3,3,0,3,3] and pattern B (index 1) counting
[2,3,3,3,4] — ends with A in `dropped_zero` (dropped by frame 2, still
tracked after frames 0–1), B in `dropped_many` (dropped by frame 4, still
undropped after frames 0–3), and the valid-pattern mapping exactly
{0 ↦ [0,1], 1 ↦ [1,2,3]}. -/
theorem C5_end_to_end_scenario :
    analyzeView (fun _ i => some i)
        (fun f rs => some (rs.map (scenarioCounts f))) 3 2 5 =
      { tracked := [], dropped_zero := [0], dropped_many := [1],
        saved := [[0, 1], [1, 2, 3]] }
    ∧ validPatterns (analyzeView (fun _ i => some i)
        (fun f rs => some (rs.map (scenarioCounts f))) 3 2 5) =
      [(0, [0, 1]), (1, [1, 2, 3])]
    ∧ (analyzeView (fun _ i => some i)
        (fun f rs => some (rs.map (scenarioCounts f))) 3 2 2).tracked = [0, 1]
    ∧ (analyzeView (fun _ i => some i)
        (fun f rs => some (rs.map (scenarioCounts f))) 3 2 3).dropped_zero = [0]
    ∧ (analyzeView (fun _ i => some i)
        (fun f rs => some (rs.map (scenarioCounts f))) 3 2 4).dropped_many = []
    ∧ (analyzeView (fun _ i => some i)
        (fun f rs => some (rs.map (scenarioCounts f))) 3 2 5).dropped_many = [1] := by
  refine ⟨?_, ?_, ?_, ?_, ?_, ?_⟩ <;> rfl

/-- C6: for every non-empty saved-frame list, `_refine_time_lapse` sorts
the frames ascending and splits them into maximal runs with adjacent gaps
at most `MAX_GAP = 6`, recording each run as its `[start, end]` pair: the
output equals the endpoint pairs of the run decomposition of the sorted
list; the runs concatenate back to the sorted list, are non-empty, have
all within-run adjacent gaps ≤ 6, and consecutive runs are separated by a
gap > 6 (maximality).  The two concrete inputs of the claim produce
exactly the stated segments. -/
theorem C6_segment_refiner (l : List Nat) (hne : l ≠ []) :
    List.Sorted (· ≤ ·) (l.insertionSort (· ≤ ·))
    ∧ List.Perm (l.insertionSort (· ≤ ·)) l
    ∧ refineFrames l = (specRuns (l.insertionSort (· ≤ ·))).map segEndpoints
    ∧ (specRuns (l.insertionSort (· ≤ ·))).flatten = l.insertionSort (· ≤ ·)
    ∧ (∀ r ∈ specRuns (l.insertionSort (· ≤ ·)),
        r ≠ [] ∧ List.Chain' (fun a b => b - a ≤ MAX_GAP) r)
    ∧ List.Chain' (fun r₁ r₂ => r₂.headD 0 - r₁.getLastD 0 > MAX_GAP)
        (specRuns (l.insertionSort (· ≤ ·)))
    ∧ refineFrames [1, 2, 3, 10, 11, 12] = [(1, 3), (10, 12)]
    ∧ refineFrames [1, 2, 3, 8, 9] = [(1, 9)] := by
  refine ⟨List.sorted_insertionSort _ l, List.perm_insertionSort _ l,
    ?_, ?_, ?_, ?_, by rfl, by rfl⟩
  all_goals
    cases hm : l.insertionSort (· ≤ ·) with
    | nil =>
      exact absurd (List.length_eq_zero.mp (by simpa using congrArg List.length hm)) hne
    | cons f fs => ?_
  · rw [refineFrames, hm]
    show splitAux f f fs = _
    rw [splitAux_eq_specRuns fs f f]
    show _ = (segEndpoints (specRunAux f fs).1) ::
      ((specRunAux f fs).2).map segEndpoints
    obtain ⟨t, ht⟩ := specRunAux_fst_cons fs f
    unfold segEndpoints
    rw [ht]
    rfl
  · show (specRunAux f fs).1 ++ ((specRunAux f fs).2).flatten = f :: fs
    exact specRunAux_flatten fs f
  · intro r hr
    rcases List.mem_cons.mp hr with rfl | hr
    · exact ⟨(specRunAux_ne_nil fs f).1, (specRunAux_chain fs f).1⟩
    · exact ⟨(specRunAux_ne_nil fs f).2 r hr, (specRunAux_chain fs f).2 r hr⟩
  · exact specRunAux_boundary fs f

/-- Witness for C6: the theorem applied to the claim's first concrete
input. -/
theorem C6_segment_refiner_witness :
    ([1, 2, 3, 10, 11, 12] : List Nat) ≠ []
    ∧ (List.Sorted (· ≤ ·) (([1, 2, 3, 10, 11, 12] : List Nat).insertionSort (· ≤ ·))
    ∧ List.Perm (([1, 2, 3, 10, 11, 12] : List Nat).insertionSort (· ≤ ·)) [1, 2, 3, 10, 11, 12]
    ∧ refineFrames [1, 2, 3, 10, 11, 12] =
        (specRuns (([1, 2, 3, 10, 11, 12] : List Nat).insertionSort (· ≤ ·))).map segEndpoints
    ∧ (specRuns (([1, 2, 3, 10, 11, 12] : List Nat).insertionSort (· ≤ ·))).flatten =
        ([1, 2, 3, 10, 11, 12] : List Nat).insertionSort (· ≤ ·)
    ∧ (∀ r ∈ specRuns (([1, 2, 3, 10, 11, 12] : List Nat).insertionSort (· ≤ ·)),
        r ≠ [] ∧ List.Chain' (fun a b => b - a ≤ MAX_GAP) r)
    ∧ List.Chain' (fun r₁ r₂ => r₂.headD 0 - r₁.getLastD 0 > MAX_GAP)
        (specRuns (([1, 2, 3, 10, 11, 12] : List Nat).insertionSort (· ≤ ·)))
    ∧ refineFrames [1, 2, 3, 10, 11, 12] = [(1, 3), (10, 12)]
    ∧ refineFrames [1, 2, 3, 8, 9] = [(1, 9)]) :=
  ⟨by decide, C6_segment_refiner [1, 2, 3, 10, 11, 12] (by decide)⟩

/-- C7: head/tail padding maps every segment `[start, end]` to
`[max(0, start − n), min(total_frames − 1, end + n)]`, entrywise over the
segment dict; the padded start is never negative; and the claim's two
concrete examples hold. -/
theorem C7_head_tail_padding (tl : List (Nat × (Int × Int)))
    (nPad totalFrames : Int) (hn : 0 ≤ nPad) (ht : 1 ≤ totalFrames) :
    addHeadTail totalFrames nPad tl =
      tl.map (fun e =>
        (e.1, (max 0 (e.2.1 - nPad), min (totalFrames - 1) (e.2.2 + nPad))))
    ∧ (∀ e ∈ addHeadTail totalFrames nPad tl, 0 ≤ e.2.1)
    ∧ addHeadTailSeg 100 3 10 12 = (7, 15)
    ∧ addHeadTailSeg 100 3 0 2 = (0, 5) := by
  refine ⟨rfl, ?_, by decide, by decide⟩
  intro e he
  simp only [addHeadTail, addHeadTailSeg, List.mem_map] at he
  obtain ⟨p, _, rfl⟩ := he
  exact le_max_left 0 _

/-- Witness for C7: the theorem applied to a concrete segment dict,
margin 3 and 100 total frames. -/
theorem C7_head_tail_padding_witness :
    (0 ≤ (3 : Int) ∧ 1 ≤ (100 : Int))
    ∧ (addHeadTail 100 3 [(0, ((10 : Int), (12 : Int)))] =
        [(0, ((10 : Int), (12 : Int)))].map (fun e =>
          (e.1, (max 0 (e.2.1 - 3), min ((100 : Int) - 1) (e.2.2 + 3))))
    ∧ (∀ e ∈ addHeadTail 100 3 [(0, ((10 : Int), (12 : Int)))], 0 ≤ e.2.1)
    ∧ addHeadTailSeg 100 3 10 12 = (7, 15)
    ∧ addHeadTailSeg 100 3 0 2 = (0, 5)) :=
  ⟨⟨by decide, by decide⟩,
    C7_head_tail_padding [(0, ((10 : Int), (12 : Int)))] 3 100
      (by decide) (by decide)⟩

/-- C4 (counterexample): the fixed-width encoding widens for sequence
numbers ≥ 1000, so the claim's universal statement fails: the key of
(p, s) = (1, 1000) is 11000, not 1·1000 + 1000 = 2000; it collides with
the key of (11, 0); decomposition by /1000 and %1000 returns (11, 0), not
(1, 1000); and the order inverts: (1, 1000) precedes (2, 0)
lexicographically, yet its key 11000 exceeds key 2000 of (2, 0). -/
theorem C4_encoding_breaks_at_1000 :
    encodeKey 1 1000 = 11000
    ∧ encodeKey 1 1000 ≠ 1 * 1000 + 1000
    ∧ encodeKey 1 1000 = encodeKey 11 0
    ∧ (decodeOriginal (encodeKey 1 1000), decodeSequence (encodeKey 1 1000))
        ≠ (1, 1000)
    ∧ ((1 : Nat) < 2 ∧ encodeKey 2 0 < encodeKey 1 1000) := by
  have h1 : encodeKey 1 1000 = 11000 := by
    rw [encodeKey, padWidth]; norm_num
  have h2 : encodeKey 11 0 = 11000 := by
    rw [encodeKey, padWidth]; norm_num
  have h3 : encodeKey 2 0 = 2000 := by
    rw [encodeKey, padWidth]; norm_num
  rw [h1, h2, h3, decodeOriginal, decodeSequence]
  refine ⟨rfl, by omega, rfl, by decide, by omega, by omega⟩

/-- C4 (amended): for every pattern index `p` and every sequence number
`s < 1000` the composite key equals `p * 1000 + s`, decomposes back to
`(p, s)` by integer division and remainder by 1000, is injective, and is
ordered consistently with the lexicographic order on `(p, s)`; for
`s ≥ 1000` the encoding widens and these properties fail (see the
counterexample). -/
theorem C4_key_arithmetic (p s q t : Nat) (hs : s < 1000) (ht : t < 1000) :
    encodeKey p s = p * 1000 + s
    ∧ decodeOriginal (encodeKey p s) = p
    ∧ decodeSequence (encodeKey p s) = s
    ∧ (encodeKey p s = encodeKey q t ↔ (p = q ∧ s = t))
    ∧ (encodeKey p s < encodeKey q t ↔ (p < q ∨ (p = q ∧ s < t))) := by
  have hw : ∀ u : Nat, u < 1000 → padWidth u = 3 := by
    intro u hu
    have h1 : (Nat.digits 10 u).length ≤ (Nat.digits 10 999).length :=
      Nat.le_digits_len_le 10 u 999 (by omega)
    have h2 : (Nat.digits 10 999).length = 3 := by norm_num
    unfold padWidth
    omega
  have he : ∀ (a b : Nat), b < 1000 → encodeKey a b = a * 1000 + b := by
    intro a b hb
    rw [encodeKey, hw b hb]
    norm_num
  rw [he p s hs, he q t ht]
  simp only [decodeOriginal, decodeSequence]
  refine ⟨by trivial, by omega, by omega, by omega, by omega⟩

/-- Witness for C4 (amended): the arithmetic instantiated at
(p, s) = (2, 5) and (q, t) = (7, 999). -/
theorem C4_key_arithmetic_witness :
    ((5 : Nat) < 1000 ∧ (999 : Nat) < 1000)
    ∧ (encodeKey 2 5 = 2 * 1000 + 5
    ∧ decodeOriginal (encodeKey 2 5) = 2
    ∧ decodeSequence (encodeKey 2 5) = 5
    ∧ (encodeKey 2 5 = encodeKey 7 999 ↔ ((2 : Nat) = 7 ∧ (5 : Nat) = 999))
    ∧ (encodeKey 2 5 < encodeKey 7 999 ↔ ((2 : Nat) < 7 ∨ ((2 : Nat) = 7 ∧ (5 : Nat) < 999)))) :=
  ⟨⟨by decide, by decide⟩, C4_key_arithmetic 2 5 7 999 (by decide) (by decide)⟩

/-- C3: the export loop of `_process_time_series_file` passes the
*composite* dict key to region extraction, so for the segment of pattern
p = 0 with sequence number s = 1 (composite key 1) the stacks are cropped
to the bounding box of pattern 1, not pattern 0 — even though the same
code decomposes the key to `original_pattern = 0` for the directory name.
For s with `encodeKey p s ≥ n_patterns` extraction errors instead
(`none`), so every frame of the segment is dropped.  Evaluation at the
failing input, with two patterns whose boxes differ. -/
theorem C3_export_crops_wrong_pattern :
    exportCropBox [(0, 0, 10, 10), (50, 50, 10, 10)] 0 1 = some (50, 50, 10, 10)
    ∧ exportCropBox [(0, 0, 10, 10), (50, 50, 10, 10)] 0 1
        ≠ extractRegionBox [(0, 0, 10, 10), (50, 50, 10, 10)] 0
    ∧ extractRegionBox [(0, 0, 10, 10), (50, 50, 10, 10)] 0 = some (0, 0, 10, 10)
    ∧ decodeOriginal (encodeKey 0 1) = 0
    ∧ exportCropBox [(0, 0, 10, 10), (50, 50, 10, 10)] 0 2 = none := by
  have h1 : encodeKey 0 1 = 1 := by rw [encodeKey, padWidth]; norm_num
  have h2 : encodeKey 0 2 = 2 := by rw [encodeKey, padWidth]; norm_num
  unfold exportCropBox
  rw [h1, h2, decodeOriginal]
  refine ⟨by decide, by decide, by decide, by decide, by decide⟩

/-- C9: `load_nuclei` / `load_cyto` guard only `frame_idx >= n_frames`;
a negative frame index passes the guard, so no invalid-index error is
raised before the read — refuting the "if and only if" (the spec's lower
bound 0 is unchecked, unlike `load_view`, which rejects both bounds). -/
theorem C9_negative_frame_index_not_rejected :
    load_nuclei 5 (-1) = .ok ()
    ∧ load_cyto 5 (-1) = .ok ()
    ∧ (load_nuclei 5 5).isOk = false
    ∧ load_nuclei 5 0 = .ok ()
    ∧ (load_view 5 (-1)).isOk = false := by
  refine ⟨rfl, rfl, rfl, rfl, rfl⟩

theorem foldl_processViewStep_skip {ρ : Type} (analyze : Nat → Option ρ) :
    ∀ (l : List Nat) (acc : List (Nat × ρ) × List Nat),
      (∀ v ∈ l, v ∈ acc.2) →
      l.foldl (processViewStep analyze) acc = acc := by
  intro l
  induction l with
  | nil => exact fun acc _ => rfl
  | cons v rest ih =>
    intro acc h
    have hstep : processViewStep analyze acc v = acc := by
      unfold processViewStep
      rw [if_pos (h v (List.mem_cons_self v rest))]
    rw [List.foldl_cons, hstep]
    exact ih acc fun w hw => h w (List.mem_cons_of_mem v hw)

/-- C10: running the multi-view driver over a valid view range whose every
view index is already in the processed-views record processes nothing: it
writes no result file and leaves the processed-views record unchanged, so
a re-run after completion is idempotent. -/
theorem C10_driver_idempotent_when_complete {ρ : Type} (nViews : Nat)
    (analyze : Nat → Option ρ) (processed : List Nat)
    (startView endView : Nat) (hstart : startView < endView)
    (hend : endView ≤ nViews)
    (hall : ∀ v, startView ≤ v → v < endView → v ∈ processed) :
    processViews nViews analyze processed startView endView =
      .ok ([], processed) := by
  unfold processViews
  rw [if_neg (by omega)]
  congr 1
  refine foldl_processViewStep_skip analyze _ ([], processed) fun v hv => ?_
  have := List.mem_range'_1.mp hv
  exact hall v this.1 (by omega)

/-- Witness for C10: three views, all recorded as processed. -/
theorem C10_driver_idempotent_when_complete_witness :
    ((0 : Nat) < 3 ∧ (3 : Nat) ≤ 3 ∧ (∀ v, 0 ≤ v → v < 3 → v ∈ [0, 1, 2]))
    ∧ processViews 3 (fun v => some v) [0, 1, 2] 0 3 = .ok ([], [0, 1, 2]) :=
  ⟨⟨by decide, by decide, by decide⟩,
    C10_driver_idempotent_when_complete 3 (fun v => some v) [0, 1, 2] 0 3
      (by decide) (by decide) (by decide)⟩

/-- C8 (amended): on every non-empty contour set, `_refine_contours`
rejects exactly those contours whose area deviates from the mean of all
input areas by more than 2 standard deviations (`|a − μ| > 2σ` encoded
squared: `(a − μ)² > 4·σ²`, mean and variance computed once over the full
input), and returns the survivors sorted ascending by
(center-row, center-col).  An extreme outlier above `mean + 2·std` is
always excluded, but the remaining K−1 contours are all returned only
when no *other* contour also deviates by more than 2σ (see the
counterexample). -/
theorem C8_area_filter (cs out : List Contour) (hne : cs ≠ [])
    (hout : refineContours cs = .ok out) :
    List.Perm out (cs.filter (keepContour cs))
    ∧ List.Sorted keyLe out
    ∧ (∀ c, c ∈ out ↔
        (c ∈ cs ∧ (c.area - meanArea cs) ^ 2 ≤ 4 * varArea cs))
    ∧ (∀ c ∈ cs, (c.area - meanArea cs) ^ 2 > 4 * varArea cs → c ∉ out) := by
  unfold refineContours at hout
  rw [if_neg (by simpa using hne)] at hout
  have hout' := Except.ok.inj hout
  subst hout'
  refine ⟨List.perm_insertionSort keyLe _, List.sorted_insertionSort keyLe _,
    fun c => ?_, fun c _ hdev hmem => ?_⟩
  · simp [List.mem_insertionSort, List.mem_filter, keepContour, not_lt]
  · have := (by
      simp [List.mem_insertionSort, List.mem_filter, keepContour, not_lt] :
        c ∈ (cs.filter (keepContour cs)).insertionSort keyLe ↔
          (c ∈ cs ∧ (c.area - meanArea cs) ^ 2 ≤ 4 * varArea cs)).mp hmem
    exact absurd hdev (not_lt.mpr this.2)

/-- Witness for C8 (amended): a two-contour set (equal areas, distinct
centers) on which the filter keeps both and the sort swaps them into
reading order. -/
theorem C8_area_filter_witness :
    (([⟨4, 5, 5, 2, 2⟩, ⟨4, 0, 0, 2, 2⟩] : List Contour) ≠ []
      ∧ refineContours [⟨4, 5, 5, 2, 2⟩, ⟨4, 0, 0, 2, 2⟩] =
          .ok [⟨4, 0, 0, 2, 2⟩, ⟨4, 5, 5, 2, 2⟩])
    ∧ (List.Perm ([⟨4, 0, 0, 2, 2⟩, ⟨4, 5, 5, 2, 2⟩] : List Contour)
        (([⟨4, 5, 5, 2, 2⟩, ⟨4, 0, 0, 2, 2⟩] : List Contour).filter
          (keepContour [⟨4, 5, 5, 2, 2⟩, ⟨4, 0, 0, 2, 2⟩]))
    ∧ List.Sorted keyLe ([⟨4, 0, 0, 2, 2⟩, ⟨4, 5, 5, 2, 2⟩] : List Contour)
    ∧ (∀ c, c ∈ ([⟨4, 0, 0, 2, 2⟩, ⟨4, 5, 5, 2, 2⟩] : List Contour) ↔
        (c ∈ ([⟨4, 5, 5, 2, 2⟩, ⟨4, 0, 0, 2, 2⟩] : List Contour)
          ∧ (c.area - meanArea [⟨4, 5, 5, 2, 2⟩, ⟨4, 0, 0, 2, 2⟩]) ^ 2
              ≤ 4 * varArea [⟨4, 5, 5, 2, 2⟩, ⟨4, 0, 0, 2, 2⟩]))
    ∧ (∀ c ∈ ([⟨4, 5, 5, 2, 2⟩, ⟨4, 0, 0, 2, 2⟩] : List Contour),
        (c.area - meanArea [⟨4, 5, 5, 2, 2⟩, ⟨4, 0, 0, 2, 2⟩]) ^ 2
            > 4 * varArea [⟨4, 5, 5, 2, 2⟩, ⟨4, 0, 0, 2, 2⟩] →
          c ∉ ([⟨4, 0, 0, 2, 2⟩, ⟨4, 5, 5, 2, 2⟩] : List Contour))) := by
  have hm : meanArea [⟨4, 5, 5, 2, 2⟩, ⟨4, 0, 0, 2, 2⟩] = 4 := by
    norm_num [meanArea]
  have hv : varArea [⟨4, 5, 5, 2, 2⟩, ⟨4, 0, 0, 2, 2⟩] = 0 := by
    simp only [varArea, hm]
    norm_num
  have hout : refineContours [⟨4, 5, 5, 2, 2⟩, ⟨4, 0, 0, 2, 2⟩] =
      .ok [⟨4, 0, 0, 2, 2⟩, ⟨4, 5, 5, 2, 2⟩] := by
    unfold refineContours
    rw [if_neg (by decide)]
    have hfe : ([⟨4, 5, 5, 2, 2⟩, ⟨4, 0, 0, 2, 2⟩] : List Contour).filter
        (keepContour [⟨4, 5, 5, 2, 2⟩, ⟨4, 0, 0, 2, 2⟩]) =
        ([⟨4, 5, 5, 2, 2⟩, ⟨4, 0, 0, 2, 2⟩] : List Contour).filter
          (fun _ => true) := by
      apply List.filter_congr
      intro c hc
      fin_cases hc <;> simp only [keepContour, hm, hv] <;> norm_num
    rw [hfe, List.filter_true]
    exact congrArg Except.ok (by decide)
  exact ⟨⟨by decide, hout⟩,
    C8_area_filter [⟨4, 5, 5, 2, 2⟩, ⟨4, 0, 0, 2, 2⟩]
      [⟨4, 0, 0, 2, 2⟩, ⟨4, 5, 5, 2, 2⟩] (by decide) hout⟩

/-- C8 (counterexample): `outlierContours` has K = 9 contours and exactly
one extreme outlier above `mean + 2·std` (area 200), yet the filter
returns 7 contours, not K − 1 = 8: the contour of area 0 also deviates by
more than 2σ and is dropped as well. -/
theorem C8_single_outlier_claim_fails :
    outlierContours.length = 9
    ∧ meanArea outlierContours = 100
    ∧ varArea outlierContours = 20000 / 9
    ∧ ((200 : ℚ) - meanArea outlierContours) ^ 2 > 4 * varArea outlierContours
    ∧ (0 : ℚ) < 200 - meanArea outlierContours
    ∧ (outlierContours.filter fun c =>
        decide (meanArea outlierContours < c.area ∧
          (c.area - meanArea outlierContours) ^ 2
            > 4 * varArea outlierContours)).length = 1
    ∧ refineContours outlierContours =
        .ok [⟨100, 10, 0, 2, 2⟩, ⟨100, 20, 0, 2, 2⟩, ⟨100, 30, 0, 2, 2⟩,
             ⟨100, 40, 0, 2, 2⟩, ⟨100, 50, 0, 2, 2⟩, ⟨100, 60, 0, 2, 2⟩,
             ⟨100, 70, 0, 2, 2⟩]
    ∧ ([⟨100, 10, 0, 2, 2⟩, ⟨100, 20, 0, 2, 2⟩, ⟨100, 30, 0, 2, 2⟩,
        ⟨100, 40, 0, 2, 2⟩, ⟨100, 50, 0, 2, 2⟩, ⟨100, 60, 0, 2, 2⟩,
        ⟨100, 70, 0, 2, 2⟩] : List Contour).length ≠ outlierContours.length - 1 := by
  have hm : meanArea outlierContours = 100 := by
    simp [meanArea, outlierContours]
    norm_num
  have hv : varArea outlierContours = 20000 / 9 := by
    simp only [varArea, hm]
    simp [outlierContours]
    norm_num
  have hfilter : outlierContours.filter (keepContour outlierContours) =
      [⟨100, 10, 0, 2, 2⟩, ⟨100, 20, 0, 2, 2⟩, ⟨100, 30, 0, 2, 2⟩,
       ⟨100, 40, 0, 2, 2⟩, ⟨100, 50, 0, 2, 2⟩, ⟨100, 60, 0, 2, 2⟩,
       ⟨100, 70, 0, 2, 2⟩] := by
    have hc : outlierContours.filter (keepContour outlierContours) =
        outlierContours.filter (fun c => c.area == 100) := by
      apply List.filter_congr
      intro c hc
      fin_cases hc <;> simp only [keepContour, hm, hv] <;> norm_num
    rw [hc]
    decide
  have hsingle : (outlierContours.filter fun c =>
      decide (meanArea outlierContours < c.area ∧
        (c.area - meanArea outlierContours) ^ 2
          > 4 * varArea outlierContours)).length = 1 := by
    have hc : (outlierContours.filter fun c =>
        decide (meanArea outlierContours < c.area ∧
          (c.area - meanArea outlierContours) ^ 2
            > 4 * varArea outlierContours)) =
        outlierContours.filter (fun c => c.area == 200) := by
      apply List.filter_congr
      intro c hc
      fin_cases hc <;> simp only [hm, hv] <;> norm_num
    rw [hc]
    decide
  refine ⟨by decide, hm, hv, by rw [hm, hv]; norm_num, by rw [hm]; norm_num,
    hsingle, ?_, by decide⟩
  unfold refineContours
  rw [if_neg (by decide), hfilter]
  exact congrArg Except.ok (by decide)

end CellCounter
